import Mathlib

/-!
Verification development for the yoga-layout-taffy compatibility layer
(`src/Config.ts`, class `Node` and its style cache / resolution logic).

The wrapper's pure style-resolution functions, the per-node dirty-state
machine and the tree-shaped layout pass are embedded as Lean definitions.
Numbers that the TypeScript source handles as JS doubles are modelled as
rationals (`ℚ`); JS `NaN` is modelled explicitly by the `JsNum.nan`
constructor.  The external Taffy engine is not part of the repository;
only the thin slice of its documented behaviour that the wrapper relies
on is modelled, and each such place is marked in the comments.
-/

namespace YogaTaffy

/-- Writing direction, mirroring the `Direction` enum (Inherit/LTR/RTL). -/
inductive Direction where
  | inherit
  | ltr
  | rtl
deriving DecidableEq, Repr

/-- Boolean test used throughout the source as `lastDirection === Direction.RTL`. -/
def Direction.isRTL : Direction → Bool
  | Direction.rtl => true
  | _ => false

/-- Flex main-axis direction, mirroring the `FlexDirection` enum. -/
inductive FlexDir where
  | row
  | column
  | rowReverse
  | columnReverse
deriving DecidableEq, Repr

/-- Position mode, mirroring the `PositionType` enum. -/
inductive PosType where
  | relative
  | absolute
  | static
deriving DecidableEq, Repr

/-- Yoga unit tags of the `Value` objects returned by edge getters
(`Unit.Undefined`, `Unit.Point`, `Unit.Percent`, `Unit.Auto`). -/
inductive YGUnit where
  | undefinedU
  | point
  | percent
  | autoU
deriving DecidableEq, Repr

/-- A JS number that may be `NaN`. -/
inductive JsNum where
  | nan
  | num (q : ℚ)
deriving DecidableEq, Repr

/-- The `Value` record `{unit, value}` returned by the edge getters. -/
structure YGValue where
  unit : YGUnit
  value : JsNum
deriving DecidableEq, Repr

/-- A Taffy style value: `"Auto"`, `{Length: q}` or `{Percent: q}`
(the `Percent` payload is the 0..1 fraction, as in the source). -/
inductive TaffyVal where
  | auto
  | length (q : ℚ)
  | percent (q : ℚ)
deriving DecidableEq, Repr

/-- A physical rect `{left, right, top, bottom}` of Taffy values, the shape
the resolvers write into `s.margin` / `s.padding` / `s.border` / `s.inset`. -/
structure Rect where
  left : TaffyVal
  right : TaffyVal
  top : TaffyVal
  bottom : TaffyVal
deriving DecidableEq, Repr

/-- Rect with all four sides `"Auto"` (used for Static-position insets). -/
def autoRect : Rect := ⟨TaffyVal.auto, TaffyVal.auto, TaffyVal.auto, TaffyVal.auto⟩

/-- A raw user-supplied edge value as cached by `setMargin` / `setPadding`:
a number, the literal string `"auto"`, or a percentage string `"q%"`
(the payload of `pct` is the number before the percent sign). -/
inductive Raw where
  | num (q : ℚ)
  | autoStr
  | pct (q : ℚ)
deriving DecidableEq, Repr

/-- Embedding of `Node.parseValue`: maps a raw value to a Taffy value
("auto" ↦ "Auto", `"q%"` ↦ `{Percent: q/100}`, number ↦ `{Length: q}`). -/
def parseValue : Raw → TaffyVal
  | Raw.autoStr => TaffyVal.auto
  | Raw.pct q => TaffyVal.percent (q / 100)
  | Raw.num q => TaffyVal.length q

/-- Embedding of `Node.parseToValue` on a cached margin/padding slot
(`undefined` ↦ `{Undefined, NaN}`, `"auto"` ↦ `{Auto, NaN}`,
number ↦ `{Point, q}`, `"q%"` ↦ `{Percent, q}`). -/
def parseToValue : Option Raw → YGValue
  | none => ⟨YGUnit.undefinedU, JsNum.nan⟩
  | some Raw.autoStr => ⟨YGUnit.autoU, JsNum.nan⟩
  | some (Raw.num q) => ⟨YGUnit.point, JsNum.num q⟩
  | some (Raw.pct q) => ⟨YGUnit.percent, JsNum.num q⟩

/-- The nine Yoga edge keys. -/
inductive Edge where
  | left
  | right
  | top
  | bottom
  | start
  | end_
  | horizontal
  | vertical
  | all
deriving DecidableEq, Repr

/-- The four physical edges targeted by the resolvers' `setPhysical` helper. -/
inductive PEdge where
  | left
  | right
  | top
  | bottom
deriving DecidableEq, Repr

/-- An edge-keyed cache record (`Record<Edge, α | undefined>`), one optional
slot per Yoga edge key, as in `_styleCache.margins` / `.paddings` / `.borders`. -/
structure EdgeMap (α : Type) where
  eLeft : Option α
  eRight : Option α
  eTop : Option α
  eBottom : Option α
  eStart : Option α
  eEnd : Option α
  eHorizontal : Option α
  eVertical : Option α
  eAll : Option α
deriving DecidableEq, Repr

/-- The empty cache (all nine slots `undefined`). -/
def EdgeMap.empty {α : Type} : EdgeMap α :=
  ⟨none, none, none, none, none, none, none, none, none⟩

/-- Indexed read `cache[edge]`. -/
def EdgeMap.get {α : Type} (m : EdgeMap α) : Edge → Option α
  | Edge.left => m.eLeft
  | Edge.right => m.eRight
  | Edge.top => m.eTop
  | Edge.bottom => m.eBottom
  | Edge.start => m.eStart
  | Edge.end_ => m.eEnd
  | Edge.horizontal => m.eHorizontal
  | Edge.vertical => m.eVertical
  | Edge.all => m.eAll

/-- Indexed write `cache[edge] = v` (the write of `setMargin` / `setPadding` /
`setBorder`, which store the literal last value under the given key). -/
def EdgeMap.set {α : Type} (m : EdgeMap α) : Edge → Option α → EdgeMap α
  | Edge.left, v => { m with eLeft := v }
  | Edge.right, v => { m with eRight := v }
  | Edge.top, v => { m with eTop := v }
  | Edge.bottom, v => { m with eBottom := v }
  | Edge.start, v => { m with eStart := v }
  | Edge.end_, v => { m with eEnd := v }
  | Edge.horizontal, v => { m with eHorizontal := v }
  | Edge.vertical, v => { m with eVertical := v }
  | Edge.all, v => { m with eAll := v }

/-- A cached inset slot of `_styleCache.insets`: either the initial literal
string `"auto"` or a stored `parseValue` result (written by `setPosition`). -/
inductive InsetCacheVal where
  | rawAuto
  | v (t : TaffyVal)
deriving DecidableEq, Repr

/-- The inset cache: `setPosition` fans compound keys out to these six slots,
so only Left/Right/Top/Bottom/Start/End are ever stored. -/
structure InsetMap where
  iLeft : InsetCacheVal
  iRight : InsetCacheVal
  iTop : InsetCacheVal
  iBottom : InsetCacheVal
  iStart : InsetCacheVal
  iEnd : InsetCacheVal
deriving DecidableEq, Repr

/-- The initial inset cache: every slot holds the literal string `"auto"`. -/
def InsetMap.initial : InsetMap :=
  ⟨InsetCacheVal.rawAuto, InsetCacheVal.rawAuto, InsetCacheVal.rawAuto,
   InsetCacheVal.rawAuto, InsetCacheVal.rawAuto, InsetCacheVal.rawAuto⟩

/-- The `parser` closure of `resolveInsets`: `v === "auto" ? "Auto" : v`. -/
def insetParser : InsetCacheVal → TaffyVal
  | InsetCacheVal.rawAuto => TaffyVal.auto
  | InsetCacheVal.v t => t

/-- Embedding of `Node.resolveInsets`: reads the six cached slots, then lets
an explicitly set (non-"Auto") Start/End overwrite the physical Left/Right
slot for its direction-resolved side. -/
def resolveInsets (ins : InsetMap) (isRTL : Bool) : Rect :=
  let l := insetParser ins.iLeft
  let r := insetParser ins.iRight
  let t := insetParser ins.iTop
  let b := insetParser ins.iBottom
  let s := insetParser ins.iStart
  let e := insetParser ins.iEnd
  let lr1 : TaffyVal × TaffyVal :=
    if s ≠ TaffyVal.auto then (if isRTL then (l, s) else (s, r)) else (l, r)
  let lr2 : TaffyVal × TaffyVal :=
    if e ≠ TaffyVal.auto then (if isRTL then (e, lr1.2) else (lr1.1, e)) else lr1
  { left := lr2.1, right := lr2.2, top := t, bottom := b }

/-- The `setPhysical` helper of `resolveMarginsToTaffy` / `resolvePaddingsToTaffy`:
a defined value is parsed and written to the named physical side, `undefined`
is a no-op. -/
def spV (cur : Rect) (e : PEdge) (v : Option Raw) : Rect :=
  match v with
  | none => cur
  | some r =>
    match e with
    | PEdge.left => { cur with left := parseValue r }
    | PEdge.right => { cur with right := parseValue r }
    | PEdge.top => { cur with top := parseValue r }
    | PEdge.bottom => { cur with bottom := parseValue r }

/-- The `setPhysical` helper of `resolveBordersToTaffy`: a defined numeric
width is written as `{Length: value}`. -/
def spB (cur : Rect) (e : PEdge) (v : Option ℚ) : Rect :=
  match v with
  | none => cur
  | some q =>
    match e with
    | PEdge.left => { cur with left := TaffyVal.length q }
    | PEdge.right => { cur with right := TaffyVal.length q }
    | PEdge.top => { cur with top := TaffyVal.length q }
    | PEdge.bottom => { cur with bottom := TaffyVal.length q }

/-- Embedding of the rect computation inside `Node.resolveMarginsToTaffy`:
start from all-Auto, apply All, then Horizontal/Vertical, then Start/End by
direction, then the four physical edges last.  (The source's outer
`!== undefined` guards are redundant with `setPhysical`'s own guard and are
folded into it.) -/
def resolveMarginsRect (m : EdgeMap Raw) (isRTL : Bool) : Rect :=
  let cur : Rect := autoRect
  let cur := spV (spV (spV (spV cur PEdge.left m.eAll) PEdge.right m.eAll)
      PEdge.top m.eAll) PEdge.bottom m.eAll
  let cur := spV (spV cur PEdge.left m.eHorizontal) PEdge.right m.eHorizontal
  let cur := spV (spV cur PEdge.top m.eVertical) PEdge.bottom m.eVertical
  let cur := if isRTL then spV cur PEdge.right m.eStart else spV cur PEdge.left m.eStart
  let cur := if isRTL then spV cur PEdge.left m.eEnd else spV cur PEdge.right m.eEnd
  let cur := spV cur PEdge.left m.eLeft
  let cur := spV cur PEdge.right m.eRight
  let cur := spV cur PEdge.top m.eTop
  let cur := spV cur PEdge.bottom m.eBottom
  cur

/-- Rect with all four sides `{Length: 0}` (initial value of the padding and
border resolvers). -/
def zeroRect : Rect :=
  ⟨TaffyVal.length 0, TaffyVal.length 0, TaffyVal.length 0, TaffyVal.length 0⟩

/-- Embedding of the rect computation inside `Node.resolvePaddingsToTaffy`:
identical layering to margins but starting from all-zero lengths. -/
def resolvePaddingsRect (p : EdgeMap Raw) (isRTL : Bool) : Rect :=
  let cur : Rect := zeroRect
  let cur := spV (spV (spV (spV cur PEdge.left p.eAll) PEdge.right p.eAll)
      PEdge.top p.eAll) PEdge.bottom p.eAll
  let cur := spV (spV cur PEdge.left p.eHorizontal) PEdge.right p.eHorizontal
  let cur := spV (spV cur PEdge.top p.eVertical) PEdge.bottom p.eVertical
  let cur := if isRTL then spV cur PEdge.right p.eStart else spV cur PEdge.left p.eStart
  let cur := if isRTL then spV cur PEdge.left p.eEnd else spV cur PEdge.right p.eEnd
  let cur := spV cur PEdge.left p.eLeft
  let cur := spV cur PEdge.right p.eRight
  let cur := spV cur PEdge.top p.eTop
  let cur := spV cur PEdge.bottom p.eBottom
  cur

/-- Embedding of the rect computation inside `Node.resolveBordersToTaffy`:
identical layering, numeric widths written as lengths. -/
def resolveBordersRect (b : EdgeMap ℚ) (isRTL : Bool) : Rect :=
  let cur : Rect := zeroRect
  let cur := spB (spB (spB (spB cur PEdge.left b.eAll) PEdge.right b.eAll)
      PEdge.top b.eAll) PEdge.bottom b.eAll
  let cur := spB (spB cur PEdge.left b.eHorizontal) PEdge.right b.eHorizontal
  let cur := spB (spB cur PEdge.top b.eVertical) PEdge.bottom b.eVertical
  let cur := if isRTL then spB cur PEdge.right b.eStart else spB cur PEdge.left b.eStart
  let cur := if isRTL then spB cur PEdge.left b.eEnd else spB cur PEdge.right b.eEnd
  let cur := spB cur PEdge.left b.eLeft
  let cur := spB cur PEdge.right b.eRight
  let cur := spB cur PEdge.top b.eTop
  let cur := spB cur PEdge.bottom b.eBottom
  cur

/-!
Per-node state.  `NodeData` gathers the wrapper's canonical style cache,
its bookkeeping flags and the node's slice of the live engine style.  The
`t`-prefixed fields are the fields of the Taffy `Style` object returned by
`tree.getStyle(id)`, plus the engine's per-node dirty bit.
-/

/-- The per-node state of a `Node` wrapper together with its live engine
style.  `fired` counts dirtied-callback invocations; `engineDirty` is the
engine-side dirty bit read by the public `isDirty()` accessor. -/
structure NodeData where
  nid : ℕ
  direction : Direction
  lastDirection : Direction
  flexDirection : FlexDir
  position : PosType
  margins : EdgeMap Raw
  paddings : EdgeMap Raw
  borders : EdgeMap ℚ
  insets : InsetMap
  hasMeasure : Bool
  hasDirtied : Bool
  isDirtyFlag : Bool
  hasNewLayoutFlag : Bool
  fired : ℕ
  tFlexDir : FlexDir
  tMargin : Rect
  tPadding : Rect
  tBorder : Rect
  tInset : Rect
  engineDirty : Bool
deriving DecidableEq, Repr

/-- Field-initializer state of a freshly allocated `Node` before the
constructor body runs: `_isDirty = false`, `_hasNewLayout = true`, no
callbacks, default style cache (`flexDirection: Column`, `lastDirection:
LTR`, `direction: Inherit`, all edge slots unset, insets `"auto"`), and a
fresh Taffy leaf style (Taffy defaults: `flex_direction` Row, zero
margins/paddings/borders, auto insets; a fresh leaf has no computed layout,
so its engine dirty bit is set). -/
def initNodeData : NodeData where
  nid := 0
  direction := Direction.inherit
  lastDirection := Direction.ltr
  flexDirection := FlexDir.column
  position := PosType.relative
  margins := EdgeMap.empty
  paddings := EdgeMap.empty
  borders := EdgeMap.empty
  insets := InsetMap.initial
  hasMeasure := false
  hasDirtied := false
  isDirtyFlag := false
  hasNewLayoutFlag := true
  fired := 0
  tFlexDir := FlexDir.row
  tMargin := zeroRect
  tPadding := zeroRect
  tBorder := zeroRect
  tInset := autoRect
  engineDirty := true

/-- Embedding of `Node.markDirtyInternal`: on a clean node with both a
measure function and a dirtied callback, become dirty and fire the callback
once; on any other clean node just become dirty; on a dirty node do
nothing. -/
def markDirtyInternal (d : NodeData) : NodeData :=
  if ¬d.isDirtyFlag ∧ d.hasMeasure ∧ d.hasDirtied then
    { d with isDirtyFlag := true, fired := d.fired + 1 }
  else if ¬d.isDirtyFlag then
    { d with isDirtyFlag := true }
  else
    d

/-- Embedding of `Node.updateStyle`: mutate the live engine style with `f`,
write it back (`tree.setStyle` marks the engine's node dirty — Taffy
behaviour), then run `markDirtyInternal`. -/
def updateStyleD (f : NodeData → NodeData) (d : NodeData) : NodeData :=
  markDirtyInternal { f d with engineDirty := true }

/-- Per-node part of `Node.resolveMarginsToTaffy`: recompute the live margin
rect from the cache under the node's last resolved direction. -/
def resolveMarginsToTaffyD (d : NodeData) : NodeData :=
  updateStyleD
    (fun x => { x with tMargin := resolveMarginsRect x.margins x.lastDirection.isRTL }) d

/-- Per-node part of `Node.resolvePaddingsToTaffy`. -/
def resolvePaddingsToTaffyD (d : NodeData) : NodeData :=
  updateStyleD
    (fun x => { x with tPadding := resolvePaddingsRect x.paddings x.lastDirection.isRTL }) d

/-- Per-node part of `Node.resolveBordersToTaffy`. -/
def resolveBordersToTaffyD (d : NodeData) : NodeData :=
  updateStyleD
    (fun x => { x with tBorder := resolveBordersRect x.borders x.lastDirection.isRTL }) d

/-- Per-node part of `Node.resolveInsetsToTaffy`: Static position forces
all-auto insets, otherwise `resolveInsets` under the node's last resolved
direction. -/
def resolveInsetsToTaffyD (d : NodeData) : NodeData :=
  updateStyleD
    (fun x =>
      { x with
        tInset :=
          if x.position = PosType.static then autoRect
          else resolveInsets x.insets x.lastDirection.isRTL }) d

/-- Row↔RowReverse swap of `Node.applyRTLFlip` (Column directions untouched). -/
def rtlFlip : FlexDir → FlexDir
  | FlexDir.row => FlexDir.rowReverse
  | FlexDir.rowReverse => FlexDir.row
  | fd => fd

/-- Per-node part of `Node.applyRTLFlip`: write the flipped canonical
direction into the live engine style (the cache is not changed). -/
def flipD (d : NodeData) : NodeData :=
  updateStyleD (fun x => { x with tFlexDir := rtlFlip x.flexDirection }) d

/-- Per-node part of `Node.restoreFlexDirection`: write the canonical cached
direction back into the live engine style. -/
def restoreD (d : NodeData) : NodeData :=
  updateStyleD (fun x => { x with tFlexDir := x.flexDirection }) d

/-- Per-node effect of the engine's `computeLayoutWithMeasure` on the dirty
bookkeeping: Taffy fills the node's layout cache, so its dirty bit clears.
Modelled engine behaviour (the engine is an external dependency). -/
def cedD (d : NodeData) : NodeData :=
  { d with engineDirty := false }

/-- Per-node part of `Node.markNewLayoutRecursive`: `_isDirty = false`,
`_hasNewLayout = true`. -/
def mnlD (d : NodeData) : NodeData :=
  { d with isDirtyFlag := false, hasNewLayoutFlag := true }

/-!
The shadow tree.  A node owns an ordered child list (`childList`); the
forest type makes all recursion structural.
-/

mutual
/-- A wrapper node with its ordered child list. -/
inductive NTree where
  | node : NodeData → NForest → NTree
/-- An ordered list of child nodes. -/
inductive NForest where
  | nil : NForest
  | cons : NTree → NForest → NForest
end

/-- The data stored at the root of a tree. -/
def NTree.data : NTree → NodeData
  | NTree.node d _ => d

/-- The child forest of a tree. -/
def NTree.kids : NTree → NForest
  | NTree.node _ cs => cs

mutual
/-- Apply a per-node function to every node of a tree (the recursion scheme
shared by `applyRTLFlip`, `restoreFlexDirection`, `markNewLayoutRecursive`
and the engine's whole-subtree computation). -/
def mapTree (f : NodeData → NodeData) : NTree → NTree
  | NTree.node d cs => NTree.node (f d) (mapForest f cs)
/-- Forest version of `mapTree`. -/
def mapForest (f : NodeData → NodeData) : NForest → NForest
  | NForest.nil => NForest.nil
  | NForest.cons c cs => NForest.cons (mapTree f c) (mapForest f cs)
end

mutual
/-- Collect a projection of every node's data, root first. -/
def collectT {α : Type} (g : NodeData → α) : NTree → List α
  | NTree.node d cs => g d :: collectF g cs
/-- Forest version of `collectT`. -/
def collectF {α : Type} (g : NodeData → α) : NForest → List α
  | NForest.nil => []
  | NForest.cons c cs => collectT g c ++ collectF g cs
end

mutual
/-- Recursive body of `Node.resolveInsetsToTaffy` for a child node: the
parent first assigns `child._styleCache.lastDirection = dir`, then the child
re-resolves its insets and recurses into its own children with its (freshly
assigned) `lastDirection`. -/
def resolveInsetsToTaffyGo (dir : Direction) : NTree → NTree
  | NTree.node d cs =>
    let d' := resolveInsetsToTaffyD { d with lastDirection := dir }
    NTree.node d' (resolveInsetsToTaffyKids d'.lastDirection cs)
/-- Child loop of `Node.resolveInsetsToTaffy`. -/
def resolveInsetsToTaffyKids (dir : Direction) : NForest → NForest
  | NForest.nil => NForest.nil
  | NForest.cons c cs =>
    NForest.cons (resolveInsetsToTaffyGo dir c) (resolveInsetsToTaffyKids dir cs)
end

/-- Embedding of `Node.resolveInsetsToTaffy` at the call root: the root node
keeps its own `lastDirection`, re-resolves its insets, and recurses into the
children as in `resolveInsetsToTaffyGo`. -/
def resolveInsetsToTaffyT : NTree → NTree
  | NTree.node d cs =>
    let d' := resolveInsetsToTaffyD d
    NTree.node d' (resolveInsetsToTaffyKids d'.lastDirection cs)

/-- Apply a function to the root's data only, leaving children untouched
(the way `calculateLayout` invokes the non-recursive border/margin/padding
resolvers on the pass root). -/
def onRoot (f : NodeData → NodeData) : NTree → NTree
  | NTree.node d cs => NTree.node (f d) cs

/-- Embedding of the direction defaulting at the top of
`Node.calculateLayout`: explicit argument, else the node's stored direction,
with `Inherit` falling back to LTR. -/
def effectiveDirection (t : NTree) (dirArg : Option Direction) : Direction :=
  match dirArg with
  | some dd => dd
  | none =>
    if t.data.direction = Direction.inherit then Direction.ltr else t.data.direction

/-- Embedding of `Node.calculateLayout` as a whole-tree transformation.
`engineOk` records whether the engine's `computeLayoutWithMeasure` call
returns normally; when it throws, the function is exited by the exception
right there, so none of the steps after the engine call run and the state
is whatever the pre-call mutations left (the engine's own partial effects on
its layout caches are irrelevant to the wrapper state observed here).  The
returned Bool is `true` when the pass ran to completion. -/
def calculateLayoutT (t : NTree) (dirArg : Option Direction) (engineOk : Bool) :
    NTree × Bool :=
  let eff := effectiveDirection t dirArg
  let t1 := onRoot (fun d => { d with lastDirection := eff }) t
  let isRTL := eff.isRTL
  let t2 := onRoot resolveBordersToTaffyD t1
  let t3 := onRoot resolveMarginsToTaffyD t2
  let t4 := onRoot resolvePaddingsToTaffyD t3
  let t5 := resolveInsetsToTaffyT t4
  let t6 := if isRTL then mapTree flipD t5 else t5
  if engineOk then
    let t7 := mapTree cedD t6
    let t8 := if isRTL then mapTree restoreD t7 else t7
    let t9 := mapTree mnlD t8
    (t9, true)
  else
    (t6, false)

/-!
Instance registry and recursive free.  `Node.instanceCache` is a `Map` from
engine handles to wrapper objects; it is modelled by its key set, kept as a
list of handles.  `Map.delete` removes the key; `Map.get` of an absent key
resolves nothing.
-/

/-- Embedding of `Node.free` as it acts on the registry: delete this node's
handle (`Node.instanceCache.delete(this.id)`). -/
def freeD (d : NodeData) (reg : List ℕ) : List ℕ :=
  reg.filter (fun i => i ≠ d.nid)

mutual
/-- Embedding of `Node.freeRecursive`: free every child subtree first (in
child-list order), then free this node itself. -/
def freeRecursiveT : NTree → List ℕ → List ℕ
  | NTree.node d cs, reg => freeD d (freeRecursiveF cs reg)
/-- Child loop of `Node.freeRecursive`. -/
def freeRecursiveF : NForest → List ℕ → List ℕ
  | NForest.nil, reg => reg
  | NForest.cons c cs, reg => freeRecursiveF cs (freeRecursiveT c reg)
end

mutual
/-- The order in which `freeRecursive` calls `free`, as a list of handles. -/
def freeOrderT : NTree → List ℕ
  | NTree.node d cs => freeOrderF cs ++ [d.nid]
/-- Forest version of `freeOrderT`. -/
def freeOrderF : NForest → List ℕ
  | NForest.nil => []
  | NForest.cons c cs => freeOrderT c ++ freeOrderF cs
end

/-- Embedding of `Node.getNodeById`: a registry lookup resolves a wrapper
exactly when the handle is still registered. -/
def getNodeByIdB (reg : List ℕ) (i : ℕ) : Bool :=
  decide (i ∈ reg)

/-!
Dirty propagation along the parent chain.  Ancestor lists are ordered
nearest parent first, mirroring the recursive walk of
`Node.propagateDirtyToParent`.
-/

/-- One ancestor step of `Node.propagateDirtyToParent`: a clean parent
becomes dirty and, if it has a dirtied callback registered, that callback
fires; a parent that is already dirty is left untouched.  The parent's own
measure function plays no role here. -/
def dirtyAncestorStep (p : NodeData) : NodeData :=
  if p.isDirtyFlag then p
  else if p.hasDirtied then { p with isDirtyFlag := true, fired := p.fired + 1 }
  else { p with isDirtyFlag := true }

/-- Embedding of `Node.propagateDirtyToParent`: walk the whole ancestor
chain, applying `dirtyAncestorStep` at every level (the walk continues past
already-dirty ancestors). -/
def propagateDirtyToParent : List NodeData → List NodeData
  | [] => []
  | p :: rest => dirtyAncestorStep p :: propagateDirtyToParent rest

/-- A style-mutating operation on a single node: every style setter funnels
through `Node.updateStyle`, i.e. an engine `setStyle` (which marks the
engine node dirty) followed by `markDirtyInternal`. -/
def styleMutateD (d : NodeData) : NodeData :=
  markDirtyInternal { d with engineDirty := true }

/-- A style-mutating operation observed along the parent chain: the wrapper
code touches only the node itself (`updateStyle` → `markDirtyInternal`);
the engine's `setStyle` marks the node and, inside the engine tree, its
ancestors dirty (Taffy's `set_style`/`mark_dirty` behaviour), but no
wrapper flag or callback of any ancestor is touched. -/
def styleMutateChain (n : NodeData) (ancestors : List NodeData) :
    NodeData × List NodeData :=
  (styleMutateD n, ancestors.map (fun p => { p with engineDirty := true }))

/-- Embedding of `Node.markDirty`: a no-op unless the node has a measure
function; otherwise mark the engine node dirty, run `markDirtyInternal`,
and propagate along the parent chain. -/
def markDirtyChain (n : NodeData) (ancestors : List NodeData) :
    NodeData × List NodeData :=
  if n.hasMeasure then
    (markDirtyInternal { n with engineDirty := true },
     propagateDirtyToParent (ancestors.map (fun p => { p with engineDirty := true })))
  else (n, ancestors)

/-!
Node construction (`Node.constructor`).
-/

/-- Embedding of `Node.setFlexDirection`: cache the canonical direction and
write the mapped value into the live engine style. -/
def setFlexDirectionD (d : NodeData) (fd : FlexDir) : NodeData :=
  updateStyleD (fun x => { x with tFlexDir := fd }) { d with flexDirection := fd }

/-- Embedding of `Node.setAlignContent` as it affects the modelled state:
the align-content slot itself is not tracked here, but the call still runs
`updateStyle` (engine write + `markDirtyInternal`). -/
def setAlignContentD (d : NodeData) : NodeData :=
  updateStyleD (fun x => x) d

/-- Embedding of the `Node` constructor: allocate a fresh leaf (the
field-initializer state `initNodeData`), then — when the config does not
use web defaults — run `setFlexDirection(Column)` and
`setAlignContent(FlexStart)`. -/
def mkNode (useWebDefaults : Bool) : NodeData :=
  if useWebDefaults then initNodeData
  else setAlignContentD (setFlexDirectionD initNodeData FlexDir.column)

/-- The public `hasNewLayout()` accessor: returns `_hasNewLayout`. -/
def hasNewLayoutAcc (d : NodeData) : Bool :=
  d.hasNewLayoutFlag

/-- The public `isDirty()` accessor: returns `this.tree.dirty(this.id)`,
i.e. the engine-side dirty bit, not the wrapper's `_isDirty` flag. -/
def isDirtyAcc (d : NodeData) : Bool :=
  d.engineDirty

/-!
Computed geometry.  `tree.getLayout(id)` yields `{location: {x, y},
size: {width, height}}`; the accessors derive right/bottom.
-/

/-- An engine layout result `{location: {x, y}, size: {width, height}}`. -/
structure Layout where
  x : ℚ
  y : ℚ
  width : ℚ
  height : ℚ
deriving DecidableEq, Repr

/-- Embedding of `Node.getComputedLeft`. -/
def getComputedLeft (l : Layout) : ℚ := l.x

/-- Embedding of `Node.getComputedTop`. -/
def getComputedTop (l : Layout) : ℚ := l.y

/-- Embedding of `Node.getComputedWidth`. -/
def getComputedWidth (l : Layout) : ℚ := l.width

/-- Embedding of `Node.getComputedHeight`. -/
def getComputedHeight (l : Layout) : ℚ := l.height

/-- Embedding of `Node.getComputedRight`: `location.x + size.width`. -/
def getComputedRight (l : Layout) : ℚ := l.x + l.width

/-- Embedding of `Node.getComputedBottom`: `location.y + size.height`. -/
def getComputedBottom (l : Layout) : ℚ := l.y + l.height

/-- The record returned by `Node.getComputedLayout`. -/
structure ComputedLayout where
  left : ℚ
  top : ℚ
  width : ℚ
  height : ℚ
  right : ℚ
  bottom : ℚ
deriving DecidableEq, Repr

/-- Embedding of `Node.getComputedLayout`. -/
def getComputedLayout (l : Layout) : ComputedLayout :=
  { left := l.x
    top := l.y
    width := l.width
    height := l.height
    right := l.x + l.width
    bottom := l.y + l.height }

/-!
Cache-level edge getters (`getMargin`, `getPadding`, `getBorder`,
`getPosition`) and the cache writes of the corresponding setters.
-/

/-- Cache write of `Node.setMargin`: store the literal value under the given
edge key (compound keys included). -/
def setMarginCache (m : EdgeMap Raw) (e : Edge) (v : Option Raw) : EdgeMap Raw :=
  m.set e v

/-- Cache write of `Node.setPadding`. -/
def setPaddingCache (p : EdgeMap Raw) (e : Edge) (v : Option Raw) : EdgeMap Raw :=
  p.set e v

/-- Cache write of `Node.setBorder`. -/
def setBorderCache (b : EdgeMap ℚ) (e : Edge) (v : Option ℚ) : EdgeMap ℚ :=
  b.set e v

/-- Cache write of `Node.setPosition`: compound keys fan out to the specific
inset slots (All → the six slots, Horizontal → Left/Right/Start/End,
Vertical → Top/Bottom); nothing is ever stored under a compound key. -/
def setPositionCache (ins : InsetMap) (e : Edge) (tv : TaffyVal) : InsetMap :=
  match e with
  | Edge.all =>
    { ins with
      iLeft := InsetCacheVal.v tv, iRight := InsetCacheVal.v tv,
      iTop := InsetCacheVal.v tv, iBottom := InsetCacheVal.v tv,
      iStart := InsetCacheVal.v tv, iEnd := InsetCacheVal.v tv }
  | Edge.horizontal =>
    { ins with
      iLeft := InsetCacheVal.v tv, iRight := InsetCacheVal.v tv,
      iStart := InsetCacheVal.v tv, iEnd := InsetCacheVal.v tv }
  | Edge.vertical =>
    { ins with iTop := InsetCacheVal.v tv, iBottom := InsetCacheVal.v tv }
  | Edge.left => { ins with iLeft := InsetCacheVal.v tv }
  | Edge.right => { ins with iRight := InsetCacheVal.v tv }
  | Edge.top => { ins with iTop := InsetCacheVal.v tv }
  | Edge.bottom => { ins with iBottom := InsetCacheVal.v tv }
  | Edge.start => { ins with iStart := InsetCacheVal.v tv }
  | Edge.end_ => { ins with iEnd := InsetCacheVal.v tv }

/-- Embedding of `Node.getMargin`: compound keys short-circuit to
`{Undefined, NaN}`; specific keys go through `parseToValue`. -/
def getMarginV (m : EdgeMap Raw) (e : Edge) : YGValue :=
  match e with
  | Edge.all => ⟨YGUnit.undefinedU, JsNum.nan⟩
  | Edge.horizontal => ⟨YGUnit.undefinedU, JsNum.nan⟩
  | Edge.vertical => ⟨YGUnit.undefinedU, JsNum.nan⟩
  | e => parseToValue (m.get e)

/-- Embedding of `Node.getPadding`. -/
def getPaddingV (p : EdgeMap Raw) (e : Edge) : YGValue :=
  match e with
  | Edge.all => ⟨YGUnit.undefinedU, JsNum.nan⟩
  | Edge.horizontal => ⟨YGUnit.undefinedU, JsNum.nan⟩
  | Edge.vertical => ⟨YGUnit.undefinedU, JsNum.nan⟩
  | e => parseToValue (p.get e)

/-- Embedding of `Node.getBorder`: compound keys short-circuit to `NaN`;
specific keys return the cached width or `NaN` when unset. -/
def getBorderN (b : EdgeMap ℚ) (e : Edge) : JsNum :=
  match e with
  | Edge.all => JsNum.nan
  | Edge.horizontal => JsNum.nan
  | Edge.vertical => JsNum.nan
  | e =>
    match b.get e with
    | some q => JsNum.num q
    | none => JsNum.nan

/-- The inset-cache read of `Node.getPosition` for a specific key.  The
compound keys are never read here (the getter short-circuits first); they
are mapped to the initial `"auto"` only to make the function total. -/
def InsetMap.get (ins : InsetMap) : Edge → InsetCacheVal
  | Edge.left => ins.iLeft
  | Edge.right => ins.iRight
  | Edge.top => ins.iTop
  | Edge.bottom => ins.iBottom
  | Edge.start => ins.iStart
  | Edge.end_ => ins.iEnd
  | _ => InsetCacheVal.rawAuto

/-- The result of `parseToValue` on a cached inset slot: the initial literal
string `"auto"` parses to `{Auto, NaN}`; any stored `parseValue` result is
either the string `"Auto"` or an object, and `parseToValue` recognises
neither (it checks for `undefined`, the lowercase string `"auto"`, numbers
and numeric/percent strings), so it falls through to `{Undefined, NaN}`. -/
def parseToValueIns : InsetCacheVal → YGValue
  | InsetCacheVal.rawAuto => ⟨YGUnit.autoU, JsNum.nan⟩
  | InsetCacheVal.v _ => ⟨YGUnit.undefinedU, JsNum.nan⟩

/-- Embedding of `Node.getPosition`: compound keys short-circuit to
`{Undefined, NaN}`; specific keys go through `parseToValue` on the cached
slot. -/
def getPositionV (ins : InsetMap) (e : Edge) : YGValue :=
  match e with
  | Edge.all => ⟨YGUnit.undefinedU, JsNum.nan⟩
  | Edge.horizontal => ⟨YGUnit.undefinedU, JsNum.nan⟩
  | Edge.vertical => ⟨YGUnit.undefinedU, JsNum.nan⟩
  | e => parseToValueIns (ins.get e)

/-- The uniform per-node effect of `resolveInsetsToTaffy` once the walk's
direction is fixed: assign `lastDirection := dir`, then re-resolve insets. -/
def gIns (dir : Direction) (d : NodeData) : NodeData :=
  resolveInsetsToTaffyD { d with lastDirection := dir }

/-!
Concrete instances used by counterexamples and witnesses.
-/

/-- Inset cache with `Start = {Length: 10}`, `Left = {Length: 20}` (the
spec's "physical overrides logical" example, applied to the inset family). -/
def c1InsetCex : InsetMap :=
  { InsetMap.initial with
    iStart := InsetCacheVal.v (TaffyVal.length 10),
    iLeft := InsetCacheVal.v (TaffyVal.length 20) }

/-- A single root node whose canonical flex direction is Row (live engine
style in sync). -/
def rowNodeData : NodeData :=
  { initNodeData with flexDirection := FlexDir.row, tFlexDir := FlexDir.row }

/-- Single-node tree used for the failing RTL pass. -/
def c2TreeCex : NTree :=
  NTree.node rowNodeData NForest.nil

/-- Child node whose margin cache holds `Start = 10` and whose live engine
margin was resolved under LTR (left = `{Length: 10}`), as it is after
`setMargin(Edge.Start, 10)` with `lastDirection` still LTR. -/
def c3ChildData : NodeData :=
  { initNodeData with
    nid := 2,
    margins := { EdgeMap.empty with eStart := some (Raw.num 10) },
    tMargin := ⟨TaffyVal.length 10, TaffyVal.auto, TaffyVal.auto, TaffyVal.auto⟩ }

/-- Two-level tree: a default root with the `c3ChildData` child. -/
def c3TreeCex : NTree :=
  NTree.node { initNodeData with nid := 1 }
    (NForest.cons (NTree.node c3ChildData NForest.nil) NForest.nil)

/-- Three-level chain of handles 1 → 2 → 3. -/
def c7TreeCex : NTree :=
  NTree.node { initNodeData with nid := 1 }
    (NForest.cons
      (NTree.node { initNodeData with nid := 2 }
        (NForest.cons (NTree.node { initNodeData with nid := 3 } NForest.nil)
          NForest.nil))
      NForest.nil)

/-- Single-node tree used for the completed RTL pass observed through the
public accessors. -/
def c6TreeCex : NTree :=
  NTree.node rowNodeData NForest.nil

/-- The root-only preprocessing of a layout pass: store the effective
direction, then re-resolve borders, margins and paddings (none of which
recurse into children). -/
def preD (eff : Direction) (d : NodeData) : NodeData :=
  resolvePaddingsToTaffyD
    (resolveMarginsToTaffyD (resolveBordersToTaffyD { d with lastDirection := eff }))

/-- The per-node tail of a completed layout pass: optional RTL flip, engine
computation, optional restore, then `markNewLayoutRecursive`. -/
def postD (isRTL : Bool) (d : NodeData) : NodeData :=
  mnlD ((if isRTL then restoreD else fun x => x)
    (cedD ((if isRTL then flipD else fun x => x) d)))

/-- A clean parent with a registered dirtied callback (and no measure
function). -/
def c4ParentCex : NodeData :=
  { initNodeData with hasDirtied := true }

/-- A clean node carrying both a measure function and a dirtied callback. -/
def c5NodeCex : NodeData :=
  { initNodeData with hasMeasure := true, hasDirtied := true }

/-!
Projection lemmas: `markDirtyInternal` only touches `isDirtyFlag` and
`fired`; every other field passes through all three branches unchanged.
-/

@[simp] theorem markDirtyInternal_nid (d : NodeData) :
    (markDirtyInternal d).nid = d.nid := by
  unfold markDirtyInternal; split
  · rfl
  · split <;> rfl

@[simp] theorem markDirtyInternal_direction (d : NodeData) :
    (markDirtyInternal d).direction = d.direction := by
  unfold markDirtyInternal; split
  · rfl
  · split <;> rfl

@[simp] theorem markDirtyInternal_lastDirection (d : NodeData) :
    (markDirtyInternal d).lastDirection = d.lastDirection := by
  unfold markDirtyInternal; split
  · rfl
  · split <;> rfl

@[simp] theorem markDirtyInternal_flexDirection (d : NodeData) :
    (markDirtyInternal d).flexDirection = d.flexDirection := by
  unfold markDirtyInternal; split
  · rfl
  · split <;> rfl

@[simp] theorem markDirtyInternal_position (d : NodeData) :
    (markDirtyInternal d).position = d.position := by
  unfold markDirtyInternal; split
  · rfl
  · split <;> rfl

@[simp] theorem markDirtyInternal_margins (d : NodeData) :
    (markDirtyInternal d).margins = d.margins := by
  unfold markDirtyInternal; split
  · rfl
  · split <;> rfl

@[simp] theorem markDirtyInternal_paddings (d : NodeData) :
    (markDirtyInternal d).paddings = d.paddings := by
  unfold markDirtyInternal; split
  · rfl
  · split <;> rfl

@[simp] theorem markDirtyInternal_borders (d : NodeData) :
    (markDirtyInternal d).borders = d.borders := by
  unfold markDirtyInternal; split
  · rfl
  · split <;> rfl

@[simp] theorem markDirtyInternal_insets (d : NodeData) :
    (markDirtyInternal d).insets = d.insets := by
  unfold markDirtyInternal; split
  · rfl
  · split <;> rfl

@[simp] theorem markDirtyInternal_hasMeasure (d : NodeData) :
    (markDirtyInternal d).hasMeasure = d.hasMeasure := by
  unfold markDirtyInternal; split
  · rfl
  · split <;> rfl

@[simp] theorem markDirtyInternal_hasDirtied (d : NodeData) :
    (markDirtyInternal d).hasDirtied = d.hasDirtied := by
  unfold markDirtyInternal; split
  · rfl
  · split <;> rfl

@[simp] theorem markDirtyInternal_hasNewLayoutFlag (d : NodeData) :
    (markDirtyInternal d).hasNewLayoutFlag = d.hasNewLayoutFlag := by
  unfold markDirtyInternal; split
  · rfl
  · split <;> rfl

@[simp] theorem markDirtyInternal_tFlexDir (d : NodeData) :
    (markDirtyInternal d).tFlexDir = d.tFlexDir := by
  unfold markDirtyInternal; split
  · rfl
  · split <;> rfl

@[simp] theorem markDirtyInternal_tMargin (d : NodeData) :
    (markDirtyInternal d).tMargin = d.tMargin := by
  unfold markDirtyInternal; split
  · rfl
  · split <;> rfl

@[simp] theorem markDirtyInternal_tPadding (d : NodeData) :
    (markDirtyInternal d).tPadding = d.tPadding := by
  unfold markDirtyInternal; split
  · rfl
  · split <;> rfl

@[simp] theorem markDirtyInternal_tBorder (d : NodeData) :
    (markDirtyInternal d).tBorder = d.tBorder := by
  unfold markDirtyInternal; split
  · rfl
  · split <;> rfl

@[simp] theorem markDirtyInternal_tInset (d : NodeData) :
    (markDirtyInternal d).tInset = d.tInset := by
  unfold markDirtyInternal; split
  · rfl
  · split <;> rfl

@[simp] theorem markDirtyInternal_engineDirty (d : NodeData) :
    (markDirtyInternal d).engineDirty = d.engineDirty := by
  unfold markDirtyInternal; split
  · rfl
  · split <;> rfl

@[simp] theorem markDirtyInternal_isDirtyFlag (d : NodeData) :
    (markDirtyInternal d).isDirtyFlag = true := by
  unfold markDirtyInternal; split
  · rfl
  · split
    · rfl
    · rename_i h1 h2
      simp only [not_not] at h2
      simp [h2]

/-!
Structural lemmas about the tree combinators.
-/

@[simp] theorem mapTree_data (f : NodeData → NodeData) (t : NTree) :
    (mapTree f t).data = f t.data := by
  cases t; rfl

@[simp] theorem mapTree_kids (f : NodeData → NodeData) (t : NTree) :
    (mapTree f t).kids = mapForest f t.kids := by
  cases t; rfl

@[simp] theorem onRoot_data (f : NodeData → NodeData) (t : NTree) :
    (onRoot f t).data = f t.data := by
  cases t; rfl

@[simp] theorem onRoot_kids (f : NodeData → NodeData) (t : NTree) :
    (onRoot f t).kids = t.kids := by
  cases t; rfl

@[simp] theorem collectT_node {α : Type} (g : NodeData → α) (d : NodeData) (cs : NForest) :
    collectT g (NTree.node d cs) = g d :: collectF g cs := rfl

@[simp] theorem collectF_nil {α : Type} (g : NodeData → α) :
    collectF g NForest.nil = [] := rfl

@[simp] theorem collectF_cons {α : Type} (g : NodeData → α) (c : NTree) (cs : NForest) :
    collectF g (NForest.cons c cs) = collectT g c ++ collectF g cs := rfl

theorem collectT_data_kids {α : Type} (g : NodeData → α) (t : NTree) :
    collectT g t = g t.data :: collectF g t.kids := by
  cases t; rfl

mutual
theorem collectT_mapTree {α : Type} (g : NodeData → α) (f : NodeData → NodeData) :
    ∀ t : NTree, collectT g (mapTree f t) = collectT (fun d => g (f d)) t
  | NTree.node d cs => by
    simp only [mapTree, collectT_node, collectF_mapForest g f cs]
theorem collectF_mapForest {α : Type} (g : NodeData → α) (f : NodeData → NodeData) :
    ∀ cs : NForest, collectF g (mapForest f cs) = collectF (fun d => g (f d)) cs
  | NForest.nil => rfl
  | NForest.cons c cs => by
    simp only [mapForest, collectF_cons, collectT_mapTree g f c,
      collectF_mapForest g f cs]
end

mutual
theorem collectT_eq_map {α : Type} (g : NodeData → α) :
    ∀ t : NTree, collectT g t = (collectT (fun x => x) t).map g
  | NTree.node d cs => by
    simp only [collectT_node, List.map_cons, collectF_eq_map g cs]
theorem collectF_eq_map {α : Type} (g : NodeData → α) :
    ∀ cs : NForest, collectF g cs = (collectF (fun x => x) cs).map g
  | NForest.nil => rfl
  | NForest.cons c cs => by
    simp only [collectF_cons, List.map_append, collectT_eq_map g c,
      collectF_eq_map g cs]
end

@[simp] theorem resolveInsetsToTaffyD_lastDirection (d : NodeData) :
    (resolveInsetsToTaffyD d).lastDirection = d.lastDirection := by
  simp [resolveInsetsToTaffyD, updateStyleD]

@[simp] theorem gIns_lastDirection (dir : Direction) (d : NodeData) :
    (gIns dir d).lastDirection = dir := by
  simp [gIns]

mutual
theorem riGo_eq_map (dir : Direction) :
    ∀ t : NTree, resolveInsetsToTaffyGo dir t = mapTree (gIns dir) t
  | NTree.node d cs => by
    simp only [resolveInsetsToTaffyGo, mapTree]
    rw [show resolveInsetsToTaffyD { d with lastDirection := dir } = gIns dir d from rfl]
    rw [gIns_lastDirection, riKids_eq_map dir cs]
theorem riKids_eq_map (dir : Direction) :
    ∀ cs : NForest, resolveInsetsToTaffyKids dir cs = mapForest (gIns dir) cs
  | NForest.nil => rfl
  | NForest.cons c cs => by
    simp only [resolveInsetsToTaffyKids, mapForest, riGo_eq_map dir c,
      riKids_eq_map dir cs]
end

theorem riT_eq_map (t : NTree) :
    resolveInsetsToTaffyT t = mapTree (gIns t.data.lastDirection) t := by
  cases t with
  | node d cs =>
    simp only [resolveInsetsToTaffyT, mapTree, NTree.data]
    rw [show resolveInsetsToTaffyD d = gIns d.lastDirection d from rfl]
    rw [gIns_lastDirection, riKids_eq_map d.lastDirection cs]

mutual
theorem mapTree_id : ∀ t : NTree, mapTree (fun d => d) t = t
  | NTree.node d cs => by
    simp only [mapTree, mapForest_id cs]
theorem mapForest_id : ∀ cs : NForest, mapForest (fun d => d) cs = cs
  | NForest.nil => rfl
  | NForest.cons c cs => by
    simp only [mapForest, mapTree_id c, mapForest_id cs]
end

mutual
theorem mapTree_mapTree (f g : NodeData → NodeData) :
    ∀ t : NTree, mapTree f (mapTree g t) = mapTree (fun d => f (g d)) t
  | NTree.node d cs => by
    simp only [mapTree, mapForest_mapForest f g cs]
theorem mapForest_mapForest (f g : NodeData → NodeData) :
    ∀ cs : NForest, mapForest f (mapForest g cs) = mapForest (fun d => f (g d)) cs
  | NForest.nil => rfl
  | NForest.cons c cs => by
    simp only [mapForest, mapTree_mapTree f g c, mapForest_mapForest f g cs]
end

theorem onRoot_onRoot (f g : NodeData → NodeData) (t : NTree) :
    onRoot f (onRoot g t) = onRoot (fun d => f (g d)) t := by
  cases t; rfl

/-!
Projection lemmas for the `setPhysical` helpers.
-/

@[simp] theorem spV_left_left (cur : Rect) (r : Raw) :
    (spV cur PEdge.left (some r)).left = parseValue r := rfl

@[simp] theorem spV_right_right (cur : Rect) (r : Raw) :
    (spV cur PEdge.right (some r)).right = parseValue r := rfl

@[simp] theorem spV_right_left (cur : Rect) (v : Option Raw) :
    (spV cur PEdge.right v).left = cur.left := by cases v <;> rfl

@[simp] theorem spV_top_left (cur : Rect) (v : Option Raw) :
    (spV cur PEdge.top v).left = cur.left := by cases v <;> rfl

@[simp] theorem spV_bottom_left (cur : Rect) (v : Option Raw) :
    (spV cur PEdge.bottom v).left = cur.left := by cases v <;> rfl

@[simp] theorem spV_left_right (cur : Rect) (v : Option Raw) :
    (spV cur PEdge.left v).right = cur.right := by cases v <;> rfl

@[simp] theorem spV_top_right (cur : Rect) (v : Option Raw) :
    (spV cur PEdge.top v).right = cur.right := by cases v <;> rfl

@[simp] theorem spV_bottom_right (cur : Rect) (v : Option Raw) :
    (spV cur PEdge.bottom v).right = cur.right := by cases v <;> rfl

@[simp] theorem spB_left_left (cur : Rect) (q : ℚ) :
    (spB cur PEdge.left (some q)).left = TaffyVal.length q := rfl

@[simp] theorem spB_right_right (cur : Rect) (q : ℚ) :
    (spB cur PEdge.right (some q)).right = TaffyVal.length q := rfl

@[simp] theorem spB_right_left (cur : Rect) (v : Option ℚ) :
    (spB cur PEdge.right v).left = cur.left := by cases v <;> rfl

@[simp] theorem spB_top_left (cur : Rect) (v : Option ℚ) :
    (spB cur PEdge.top v).left = cur.left := by cases v <;> rfl

@[simp] theorem spB_bottom_left (cur : Rect) (v : Option ℚ) :
    (spB cur PEdge.bottom v).left = cur.left := by cases v <;> rfl

@[simp] theorem spB_left_right (cur : Rect) (v : Option ℚ) :
    (spB cur PEdge.left v).right = cur.right := by cases v <;> rfl

@[simp] theorem spB_top_right (cur : Rect) (v : Option ℚ) :
    (spB cur PEdge.top v).right = cur.right := by cases v <;> rfl

@[simp] theorem spB_bottom_right (cur : Rect) (v : Option ℚ) :
    (spB cur PEdge.bottom v).right = cur.right := by cases v <;> rfl

/-!
Claim theorems.
-/

/-- C8: for every stored engine layout, `getComputedRight()` equals
`getComputedLeft() + getComputedWidth()` and `getComputedBottom()` equals
`getComputedTop() + getComputedHeight()`; right and bottom are derived from
the stored left/top/width/height, and `getComputedLayout()` reports exactly
the same derived values. -/
theorem c8_computed_geometry (l : Layout) :
    getComputedRight l = getComputedLeft l + getComputedWidth l ∧
    getComputedBottom l = getComputedTop l + getComputedHeight l ∧
    getComputedLayout l =
      { left := getComputedLeft l
        top := getComputedTop l
        width := getComputedWidth l
        height := getComputedHeight l
        right := getComputedLeft l + getComputedWidth l
        bottom := getComputedTop l + getComputedHeight l } :=
  ⟨rfl, rfl, rfl⟩

/-- C10: for every cache state, `getMargin`, `getPadding` and `getPosition`
with a compound edge key (`All`, `Horizontal`, `Vertical`) return
`{unit: Undefined, value: NaN}`, and `getBorder` with those keys returns
`NaN` — even immediately after setting that same compound edge to a
definite value. -/
theorem c10_compound_edge_getters (m pd : EdgeMap Raw) (b : EdgeMap ℚ)
    (ins : InsetMap) (v : Raw) (q : ℚ) (tv : TaffyVal) :
    (getMarginV m Edge.all = ⟨YGUnit.undefinedU, JsNum.nan⟩ ∧
     getMarginV m Edge.horizontal = ⟨YGUnit.undefinedU, JsNum.nan⟩ ∧
     getMarginV m Edge.vertical = ⟨YGUnit.undefinedU, JsNum.nan⟩ ∧
     getMarginV (setMarginCache m Edge.all (some v)) Edge.all =
       ⟨YGUnit.undefinedU, JsNum.nan⟩ ∧
     getMarginV (setMarginCache m Edge.horizontal (some v)) Edge.horizontal =
       ⟨YGUnit.undefinedU, JsNum.nan⟩ ∧
     getMarginV (setMarginCache m Edge.vertical (some v)) Edge.vertical =
       ⟨YGUnit.undefinedU, JsNum.nan⟩) ∧
    (getPaddingV pd Edge.all = ⟨YGUnit.undefinedU, JsNum.nan⟩ ∧
     getPaddingV pd Edge.horizontal = ⟨YGUnit.undefinedU, JsNum.nan⟩ ∧
     getPaddingV pd Edge.vertical = ⟨YGUnit.undefinedU, JsNum.nan⟩ ∧
     getPaddingV (setPaddingCache pd Edge.all (some v)) Edge.all =
       ⟨YGUnit.undefinedU, JsNum.nan⟩ ∧
     getPaddingV (setPaddingCache pd Edge.horizontal (some v)) Edge.horizontal =
       ⟨YGUnit.undefinedU, JsNum.nan⟩ ∧
     getPaddingV (setPaddingCache pd Edge.vertical (some v)) Edge.vertical =
       ⟨YGUnit.undefinedU, JsNum.nan⟩) ∧
    (getPositionV ins Edge.all = ⟨YGUnit.undefinedU, JsNum.nan⟩ ∧
     getPositionV ins Edge.horizontal = ⟨YGUnit.undefinedU, JsNum.nan⟩ ∧
     getPositionV ins Edge.vertical = ⟨YGUnit.undefinedU, JsNum.nan⟩ ∧
     getPositionV (setPositionCache ins Edge.all tv) Edge.all =
       ⟨YGUnit.undefinedU, JsNum.nan⟩ ∧
     getPositionV (setPositionCache ins Edge.horizontal tv) Edge.horizontal =
       ⟨YGUnit.undefinedU, JsNum.nan⟩ ∧
     getPositionV (setPositionCache ins Edge.vertical tv) Edge.vertical =
       ⟨YGUnit.undefinedU, JsNum.nan⟩) ∧
    (getBorderN b Edge.all = JsNum.nan ∧
     getBorderN b Edge.horizontal = JsNum.nan ∧
     getBorderN b Edge.vertical = JsNum.nan ∧
     getBorderN (setBorderCache b Edge.all (some q)) Edge.all = JsNum.nan ∧
     getBorderN (setBorderCache b Edge.horizontal (some q)) Edge.horizontal = JsNum.nan ∧
     getBorderN (setBorderCache b Edge.vertical (some q)) Edge.vertical = JsNum.nan) :=
  ⟨⟨rfl, rfl, rfl, rfl, rfl, rfl⟩, ⟨rfl, rfl, rfl, rfl, rfl, rfl⟩,
   ⟨rfl, rfl, rfl, rfl, rfl, rfl⟩, ⟨rfl, rfl, rfl, rfl, rfl, rfl⟩⟩

/-- C9: a freshly constructed node reports `hasNewLayout() = true` before
any layout pass, and when its config does not use web defaults the
constructor's default style assignments leave it already marked dirty
(`_isDirty = true`) at creation. -/
theorem c9_fresh_node (w : Bool) :
    hasNewLayoutAcc (mkNode w) = true ∧
    (w = false → (mkNode w).isDirtyFlag = true) := by
  cases w
  · exact ⟨by decide, fun _ => by decide⟩
  · exact ⟨by decide, fun h => nomatch h⟩

/-- Witness for `c9_fresh_node` at a non-web-defaults config. -/
theorem c9_fresh_node_witness :
    hasNewLayoutAcc (mkNode false) = true ∧ (mkNode false).isDirtyFlag = true :=
  ⟨(c9_fresh_node false).1, (c9_fresh_node false).2 rfl⟩

/-- C5: on a clean node carrying both a measure function and a dirtied
callback, a style mutation fires the callback exactly once on the
Clean→Dirty transition; a second consecutive mutation fires nothing, and in
general no mutation on an already-dirty node ever fires the callback. -/
theorem c5_dirtied_exactly_once (d : NodeData)
    (hclean : d.isDirtyFlag = false) (hm : d.hasMeasure = true)
    (hd : d.hasDirtied = true) :
    (styleMutateD d).fired = d.fired + 1 ∧
    (styleMutateD d).isDirtyFlag = true ∧
    (styleMutateD (styleMutateD d)).fired = d.fired + 1 ∧
    (∀ x : NodeData, x.isDirtyFlag = true → (styleMutateD x).fired = x.fired) := by
  have hfire : styleMutateD d =
      { d with engineDirty := true, isDirtyFlag := true, fired := d.fired + 1 } := by
    simp [styleMutateD, markDirtyInternal, hclean, hm, hd]
  have hdirty : ∀ x : NodeData, x.isDirtyFlag = true → (styleMutateD x).fired = x.fired := by
    intro x hx
    simp [styleMutateD, markDirtyInternal, hx]
  refine ⟨by rw [hfire], by rw [hfire], ?_, hdirty⟩
  rw [hfire, hdirty _ rfl]

/-- Witness for `c5_dirtied_exactly_once` on a concrete clean measured node
with a registered dirtied callback. -/
theorem c5_dirtied_exactly_once_witness :
    (styleMutateD c5NodeCex).fired = 1 ∧
    (styleMutateD (styleMutateD c5NodeCex)).fired = 1 := by
  have h := c5_dirtied_exactly_once c5NodeCex (by decide) (by decide) (by decide)
  exact ⟨h.1.trans (by decide), h.2.2.1.trans (by decide)⟩

/-- C1 counterexample: for the inset family the claim fails.  With
`Start = {Length: 10}` and `Left = {Length: 20}` under left-to-right
direction, `resolveInsets` resolves left to 10 (the logical edge overrides
the physical one), not to 20 as the claim states for every family. -/
theorem c1_counterexample :
    resolveInsets c1InsetCex false =
      ⟨TaffyVal.length 10, TaffyVal.auto, TaffyVal.auto, TaffyVal.auto⟩ ∧
    TaffyVal.length 10 ≠ TaffyVal.length 20 :=
  ⟨by decide, by decide⟩

/-- C1 amended: for the margin, padding and border families an explicitly
set physical Left/Right edge always wins for that side, for every cache
state and direction.  For the inset family the precedence is reversed: an
explicitly set (non-auto) Start (under LTR) or End (under RTL) overrides
the physical left side, and Start under LTR never influences the resolved
right side. -/
theorem c1_amended :
    (∀ (m : EdgeMap Raw) (isRTL : Bool) (v : Raw),
       (resolveMarginsRect { m with eLeft := some v } isRTL).left = parseValue v) ∧
    (∀ (m : EdgeMap Raw) (isRTL : Bool) (v : Raw),
       (resolveMarginsRect { m with eRight := some v } isRTL).right = parseValue v) ∧
    (∀ (p : EdgeMap Raw) (isRTL : Bool) (v : Raw),
       (resolvePaddingsRect { p with eLeft := some v } isRTL).left = parseValue v) ∧
    (∀ (p : EdgeMap Raw) (isRTL : Bool) (v : Raw),
       (resolvePaddingsRect { p with eRight := some v } isRTL).right = parseValue v) ∧
    (∀ (b : EdgeMap ℚ) (isRTL : Bool) (q : ℚ),
       (resolveBordersRect { b with eLeft := some q } isRTL).left = TaffyVal.length q) ∧
    (∀ (b : EdgeMap ℚ) (isRTL : Bool) (q : ℚ),
       (resolveBordersRect { b with eRight := some q } isRTL).right = TaffyVal.length q) ∧
    (∀ (ins : InsetMap) (w : InsetCacheVal), insetParser w ≠ TaffyVal.auto →
       (resolveInsets { ins with iStart := w } false).left = insetParser w) ∧
    (∀ (ins : InsetMap) (w : InsetCacheVal), insetParser w ≠ TaffyVal.auto →
       (resolveInsets { ins with iEnd := w } true).left = insetParser w) ∧
    (∀ (ins : InsetMap) (w1 w2 : InsetCacheVal),
       (resolveInsets { ins with iStart := w1 } false).right =
         (resolveInsets { ins with iStart := w2 } false).right) := by
  refine ⟨?_, ?_, ?_, ?_, ?_, ?_, ?_, ?_, ?_⟩
  · intro m isRTL v
    simp [resolveMarginsRect]
  · intro m isRTL v
    simp [resolveMarginsRect]
  · intro p isRTL v
    simp [resolvePaddingsRect]
  · intro p isRTL v
    simp [resolvePaddingsRect]
  · intro b isRTL q
    simp [resolveBordersRect]
  · intro b isRTL q
    simp [resolveBordersRect]
  · intro ins w h
    simp only [resolveInsets]
    by_cases he : insetParser ins.iEnd ≠ TaffyVal.auto <;> simp [h, he]
  · intro ins w h
    simp only [resolveInsets]
    by_cases hs : insetParser ins.iStart = TaffyVal.auto <;> simp [h, hs]
  · intro ins w1 w2
    simp only [resolveInsets]
    by_cases h1 : insetParser w1 ≠ TaffyVal.auto <;>
      by_cases h2 : insetParser w2 ≠ TaffyVal.auto <;>
        by_cases he : insetParser ins.iEnd ≠ TaffyVal.auto <;> simp [h1, h2, he]

/-- Witness for `c1_amended`: the inset conjunct applied at an explicit
non-auto Start value. -/
theorem c1_amended_witness :
    (resolveInsets
        { InsetMap.initial with iStart := InsetCacheVal.v (TaffyVal.length 10) }
        false).left = insetParser (InsetCacheVal.v (TaffyVal.length 10)) :=
  c1_amended.2.2.2.2.2.2.1 InsetMap.initial (InsetCacheVal.v (TaffyVal.length 10))
    (by decide)

/-- C4 counterexample: a style mutation on a clean child whose clean parent
has a registered dirtied callback leaves the parent's wrapper dirty flag
false and its callback unfired — the mutation does not propagate upward,
contradicting the claim that every clean ancestor transitions to Dirty with
its callback firing. -/
theorem c4_counterexample :
    ((styleMutateChain initNodeData [c4ParentCex]).2.map
        (fun p => p.fired) = [0]) ∧
    ((styleMutateChain initNodeData [c4ParentCex]).2.map
        (fun p => p.isDirtyFlag) = [false]) ∧
    c4ParentCex.isDirtyFlag = false ∧ c4ParentCex.hasDirtied = true ∧
    (styleMutateChain initNodeData [c4ParentCex]).1.isDirtyFlag = true := by
  refine ⟨by decide, by decide, by decide, by decide, by decide⟩

/-- C4 amended: a style-mutating operation dirties only the node itself
(no ancestor wrapper flag changes and no ancestor callback fires); upward
propagation happens only through the explicit `markDirty` request, which
requires a measure function on the requesting node, and there every clean
ancestor transitions to Dirty with its dirtied callback firing exactly when
registered, independent of the ancestor's own measure function and only on
the Clean→Dirty edge. -/
theorem c4_amended :
    (∀ (n : NodeData) (as : List NodeData),
       ((styleMutateChain n as).2).map (fun p => (p.isDirtyFlag, p.fired)) =
         as.map (fun p => (p.isDirtyFlag, p.fired))) ∧
    (∀ (n : NodeData) (as : List NodeData),
       (styleMutateChain n as).1 = styleMutateD n) ∧
    (∀ (n : NodeData) (as : List NodeData), n.hasMeasure = true →
       (markDirtyChain n as).2 =
         propagateDirtyToParent
           (as.map (fun p => { p with engineDirty := true }))) ∧
    (∀ n : NodeData, n.hasMeasure = false → ∀ as, markDirtyChain n as = (n, as)) ∧
    (∀ p : NodeData, p.isDirtyFlag = false →
       (dirtyAncestorStep p).isDirtyFlag = true ∧
       (dirtyAncestorStep p).fired = p.fired + (if p.hasDirtied then 1 else 0)) ∧
    (∀ (p : NodeData) (bm : Bool),
       dirtyAncestorStep { p with hasMeasure := bm } =
         { dirtyAncestorStep p with hasMeasure := bm }) ∧
    (∀ p : NodeData, p.isDirtyFlag = true → dirtyAncestorStep p = p) ∧
    (∀ (p : NodeData) (as : List NodeData),
       propagateDirtyToParent (p :: as) =
         dirtyAncestorStep p :: propagateDirtyToParent as) := by
  refine ⟨?_, ?_, ?_, ?_, ?_, ?_, ?_, ?_⟩
  · intro n as
    simp [styleMutateChain, List.map_map, Function.comp]
  · intro n as
    rfl
  · intro n as h
    simp [markDirtyChain, h]
  · intro n h as
    simp [markDirtyChain, h]
  · intro p hp
    by_cases hd : p.hasDirtied <;> simp [dirtyAncestorStep, hp, hd]
  · intro p bm
    by_cases h1 : p.isDirtyFlag <;> by_cases h2 : p.hasDirtied <;>
      simp [dirtyAncestorStep, h1, h2]
  · intro p hp
    simp [dirtyAncestorStep, hp]
  · intro p as
    rfl

/-- Witness for `c4_amended`: the ancestor step applied to a concrete clean
parent with a registered dirtied callback, and the explicit-request
propagation on a concrete measured node. -/
theorem c4_amended_witness :
    (dirtyAncestorStep c4ParentCex).isDirtyFlag = true ∧
    (dirtyAncestorStep c4ParentCex).fired = c4ParentCex.fired + 1 ∧
    (markDirtyChain c5NodeCex [c4ParentCex]).2 =
      propagateDirtyToParent [{ c4ParentCex with engineDirty := true }] := by
  have h1 := c4_amended.2.2.2.2.1 c4ParentCex (by decide)
  have h2 := c4_amended.2.2.1 c5NodeCex [c4ParentCex] (by decide)
  exact ⟨h1.1, h1.2.trans (by decide), h2⟩

/-- C2 failing input: an RTL pass over a Row root whose engine computation
throws.  The pass exits without restoring, leaving the live engine flex
direction mirrored (`RowReverse`) while the canonical cache still says
`Row`; a successful pass with the same inputs does restore to `Row`. -/
theorem c2_failing_input :
    (calculateLayoutT c2TreeCex (some Direction.rtl) false).2 = false ∧
    ((calculateLayoutT c2TreeCex (some Direction.rtl) false).1).data.tFlexDir =
      FlexDir.rowReverse ∧
    ((calculateLayoutT c2TreeCex (some Direction.rtl) false).1).data.flexDirection =
      FlexDir.row ∧
    ((calculateLayoutT c2TreeCex (some Direction.rtl) true).1).data.tFlexDir =
      FlexDir.row := by
  refine ⟨by decide, by decide, by decide, by decide⟩

/-- C6 counterexample: after a completed right-to-left pass over a Row
root, the restore step re-writes the node's engine style after the
computation, so the public `isDirty()` accessor (which queries the engine's
dirty bit) reports true, although the claim requires false for every
completed pass; the wrapper-side flags are as claimed. -/
theorem c6_counterexample :
    (calculateLayoutT c6TreeCex (some Direction.rtl) true).2 = true ∧
    isDirtyAcc ((calculateLayoutT c6TreeCex (some Direction.rtl) true).1).data = true ∧
    hasNewLayoutAcc ((calculateLayoutT c6TreeCex (some Direction.rtl) true).1).data = true ∧
    ((calculateLayoutT c6TreeCex (some Direction.rtl) true).1).data.isDirtyFlag = false := by
  refine ⟨by decide, by decide, by decide, by decide⟩

theorem preD_lastDirection (eff : Direction) (d : NodeData) :
    (preD eff d).lastDirection = eff := by
  simp [preD, resolvePaddingsToTaffyD, resolveMarginsToTaffyD,
    resolveBordersToTaffyD, updateStyleD]

theorem calcLayout_true_snd (t : NTree) (dirArg : Option Direction) :
    (calculateLayoutT t dirArg true).2 = true := rfl

theorem calcLayout_true_fst (t : NTree) (dirArg : Option Direction) :
    (calculateLayoutT t dirArg true).1 =
      mapTree
        (fun d => postD (effectiveDirection t dirArg).isRTL
          (gIns (effectiveDirection t dirArg) d))
        (onRoot (preD (effectiveDirection t dirArg)) t) := by
  simp only [calculateLayoutT]
  generalize effectiveDirection t dirArg = eff
  have h4 : onRoot resolvePaddingsToTaffyD (onRoot resolveMarginsToTaffyD
      (onRoot resolveBordersToTaffyD
        (onRoot (fun d => { d with lastDirection := eff }) t))) =
      onRoot (preD eff) t := by
    rw [onRoot_onRoot, onRoot_onRoot, onRoot_onRoot]; rfl
  have h5 : resolveInsetsToTaffyT (onRoot (preD eff) t) =
      mapTree (gIns eff) (onRoot (preD eff) t) := by
    rw [riT_eq_map, onRoot_data, preD_lastDirection]
  cases hR : eff.isRTL
  · simp only [hR, if_neg Bool.false_ne_true, Bool.false_eq_true, if_false, if_pos]
    rw [h4, h5]
    simp only [mapTree_mapTree]
    have hfun : (fun d => mnlD (cedD (gIns eff d))) =
        (fun d => postD false (gIns eff d)) := by
      funext d; simp [postD]
    rw [hfun]
  · simp only [hR, if_pos, if_true]
    rw [h4, h5]
    simp only [mapTree_mapTree]
    have hfun : (fun d => mnlD (restoreD (cedD (flipD (gIns eff d))))) =
        (fun d => postD true (gIns eff d)) := by
      funext d; simp [postD]
    rw [hfun]

theorem postD_tMargin (b : Bool) (x : NodeData) : (postD b x).tMargin = x.tMargin := by
  cases b <;> simp [postD, mnlD, restoreD, cedD, flipD, updateStyleD]

theorem postD_tPadding (b : Bool) (x : NodeData) : (postD b x).tPadding = x.tPadding := by
  cases b <;> simp [postD, mnlD, restoreD, cedD, flipD, updateStyleD]

theorem postD_tBorder (b : Bool) (x : NodeData) : (postD b x).tBorder = x.tBorder := by
  cases b <;> simp [postD, mnlD, restoreD, cedD, flipD, updateStyleD]

theorem postD_tInset (b : Bool) (x : NodeData) : (postD b x).tInset = x.tInset := by
  cases b <;> simp [postD, mnlD, restoreD, cedD, flipD, updateStyleD]

theorem postD_lastDirection (b : Bool) (x : NodeData) :
    (postD b x).lastDirection = x.lastDirection := by
  cases b <;> simp [postD, mnlD, restoreD, cedD, flipD, updateStyleD]

theorem postD_position (b : Bool) (x : NodeData) : (postD b x).position = x.position := by
  cases b <;> simp [postD, mnlD, restoreD, cedD, flipD, updateStyleD]

theorem postD_insets (b : Bool) (x : NodeData) : (postD b x).insets = x.insets := by
  cases b <;> simp [postD, mnlD, restoreD, cedD, flipD, updateStyleD]

theorem postD_hasNewLayout (b : Bool) (x : NodeData) :
    (postD b x).hasNewLayoutFlag = true := by
  cases b <;> simp [postD, mnlD]

theorem postD_isDirtyFlag (b : Bool) (x : NodeData) :
    (postD b x).isDirtyFlag = false := by
  cases b <;> simp [postD, mnlD]

theorem postD_engineDirty (b : Bool) (x : NodeData) :
    (postD b x).engineDirty = b := by
  cases b <;> simp [postD, mnlD, restoreD, cedD, flipD, updateStyleD]

theorem gIns_tMargin (eff : Direction) (x : NodeData) :
    (gIns eff x).tMargin = x.tMargin := by
  simp [gIns, resolveInsetsToTaffyD, updateStyleD]

theorem gIns_tPadding (eff : Direction) (x : NodeData) :
    (gIns eff x).tPadding = x.tPadding := by
  simp [gIns, resolveInsetsToTaffyD, updateStyleD]

theorem gIns_tBorder (eff : Direction) (x : NodeData) :
    (gIns eff x).tBorder = x.tBorder := by
  simp [gIns, resolveInsetsToTaffyD, updateStyleD]

theorem gIns_position (eff : Direction) (x : NodeData) :
    (gIns eff x).position = x.position := by
  simp [gIns, resolveInsetsToTaffyD, updateStyleD]

theorem gIns_insets (eff : Direction) (x : NodeData) :
    (gIns eff x).insets = x.insets := by
  simp [gIns, resolveInsetsToTaffyD, updateStyleD]

theorem gIns_tInset (eff : Direction) (x : NodeData) :
    (gIns eff x).tInset =
      (if x.position = PosType.static then autoRect
       else resolveInsets x.insets eff.isRTL) := by
  simp [gIns, resolveInsetsToTaffyD, updateStyleD]

theorem preD_tMargin (eff : Direction) (x : NodeData) :
    (preD eff x).tMargin = resolveMarginsRect x.margins eff.isRTL := by
  simp [preD, resolvePaddingsToTaffyD, resolveMarginsToTaffyD,
    resolveBordersToTaffyD, updateStyleD]

theorem preD_tPadding (eff : Direction) (x : NodeData) :
    (preD eff x).tPadding = resolvePaddingsRect x.paddings eff.isRTL := by
  simp [preD, resolvePaddingsToTaffyD, resolveMarginsToTaffyD,
    resolveBordersToTaffyD, updateStyleD]

theorem preD_tBorder (eff : Direction) (x : NodeData) :
    (preD eff x).tBorder = resolveBordersRect x.borders eff.isRTL := by
  simp [preD, resolvePaddingsToTaffyD, resolveMarginsToTaffyD,
    resolveBordersToTaffyD, updateStyleD]

/-- C3 counterexample: a two-level tree whose child margin cache holds
`Start = 10`, previously resolved under LTR (live left = `{Length: 10}`).
A completed pass with direction RTL leaves the child's live margin rect
unchanged (left still `{Length: 10}`), while re-resolving the child's cache
under RTL would give right = `{Length: 10}` — so the pass did not
re-resolve the child's margins as the claim states. -/
theorem c3_counterexample :
    collectF (fun d => d.tMargin)
        ((calculateLayoutT c3TreeCex (some Direction.rtl) true).1.kids) =
      [⟨TaffyVal.length 10, TaffyVal.auto, TaffyVal.auto, TaffyVal.auto⟩] ∧
    resolveMarginsRect c3ChildData.margins true =
      ⟨TaffyVal.auto, TaffyVal.length 10, TaffyVal.auto, TaffyVal.auto⟩ ∧
    (⟨TaffyVal.length 10, TaffyVal.auto, TaffyVal.auto, TaffyVal.auto⟩ : Rect) ≠
      ⟨TaffyVal.auto, TaffyVal.length 10, TaffyVal.auto, TaffyVal.auto⟩ := by
  refine ⟨by decide, by decide, by decide⟩

/-- C3 amended: a layout pass re-resolves margin, padding and border only
at the pass root; the inset family alone is re-resolved on every node of
the subtree (each node also receiving the freshly resolved direction into
`lastDirection`).  Descendants' live margin, padding and border rects are
left exactly as the previous resolution produced them, so a pure direction
change at the root changes descendants' physical sides for insets only. -/
theorem c3_amended (t : NTree) (dirArg : Option Direction) :
    (calculateLayoutT t dirArg true).1.data.tMargin =
      resolveMarginsRect t.data.margins (effectiveDirection t dirArg).isRTL ∧
    (calculateLayoutT t dirArg true).1.data.tPadding =
      resolvePaddingsRect t.data.paddings (effectiveDirection t dirArg).isRTL ∧
    (calculateLayoutT t dirArg true).1.data.tBorder =
      resolveBordersRect t.data.borders (effectiveDirection t dirArg).isRTL ∧
    collectF (fun d => d.tMargin) (calculateLayoutT t dirArg true).1.kids =
      collectF (fun d => d.tMargin) t.kids ∧
    collectF (fun d => d.tPadding) (calculateLayoutT t dirArg true).1.kids =
      collectF (fun d => d.tPadding) t.kids ∧
    collectF (fun d => d.tBorder) (calculateLayoutT t dirArg true).1.kids =
      collectF (fun d => d.tBorder) t.kids ∧
    (∀ x ∈ collectT (fun d => d) (calculateLayoutT t dirArg true).1,
       x.lastDirection = effectiveDirection t dirArg ∧
       x.tInset = (if x.position = PosType.static then autoRect
                   else resolveInsets x.insets (effectiveDirection t dirArg).isRTL)) := by
  refine ⟨?_, ?_, ?_, ?_, ?_, ?_, ?_⟩
  · rw [calcLayout_true_fst, mapTree_data, onRoot_data, postD_tMargin,
      gIns_tMargin, preD_tMargin]
  · rw [calcLayout_true_fst, mapTree_data, onRoot_data, postD_tPadding,
      gIns_tPadding, preD_tPadding]
  · rw [calcLayout_true_fst, mapTree_data, onRoot_data, postD_tBorder,
      gIns_tBorder, preD_tBorder]
  · rw [calcLayout_true_fst, mapTree_kids, onRoot_kids, collectF_mapForest]
    have hfun : (fun d =>
        (postD (effectiveDirection t dirArg).isRTL
          (gIns (effectiveDirection t dirArg) d)).tMargin) =
        (fun d : NodeData => d.tMargin) :=
      funext fun d => by rw [postD_tMargin, gIns_tMargin]
    rw [hfun]
  · rw [calcLayout_true_fst, mapTree_kids, onRoot_kids, collectF_mapForest]
    have hfun : (fun d =>
        (postD (effectiveDirection t dirArg).isRTL
          (gIns (effectiveDirection t dirArg) d)).tPadding) =
        (fun d : NodeData => d.tPadding) :=
      funext fun d => by rw [postD_tPadding, gIns_tPadding]
    rw [hfun]
  · rw [calcLayout_true_fst, mapTree_kids, onRoot_kids, collectF_mapForest]
    have hfun : (fun d =>
        (postD (effectiveDirection t dirArg).isRTL
          (gIns (effectiveDirection t dirArg) d)).tBorder) =
        (fun d : NodeData => d.tBorder) :=
      funext fun d => by rw [postD_tBorder, gIns_tBorder]
    rw [hfun]
  · intro x hx
    rw [calcLayout_true_fst, collectT_mapTree, collectT_eq_map] at hx
    rcases List.mem_map.mp hx with ⟨d, hd, rfl⟩
    constructor
    · rw [postD_lastDirection, gIns_lastDirection]
    · rw [postD_tInset, gIns_tInset, postD_position, gIns_position,
        postD_insets, gIns_insets]

/-- Witness for `c3_amended`: the all-nodes conjunct applied to the root
element of a concrete completed RTL pass. -/
theorem c3_amended_witness :
    ((calculateLayoutT c3TreeCex (some Direction.rtl) true).1.data.lastDirection =
      effectiveDirection c3TreeCex (some Direction.rtl)) := by
  have h := (c3_amended c3TreeCex (some Direction.rtl)).2.2.2.2.2.2
      ((calculateLayoutT c3TreeCex (some Direction.rtl) true).1.data)
      (by rw [collectT_data_kids]; exact List.mem_cons_self _ _)
  exact h.1

/-- C6 amended: after a completed layout pass, every visited node reports
`hasNewLayout() = true` and has its wrapper `_isDirty` flag cleared; the
public `isDirty()` accessor, which queries the engine's dirty bit, reports
false exactly when the pass resolved to LTR — after an RTL pass the restore
step re-writes every node's engine style after the computation, so
`isDirty()` reports true. -/
theorem c6_amended (t : NTree) (dirArg : Option Direction) :
    (calculateLayoutT t dirArg true).2 = true ∧
    (∀ x ∈ collectT (fun d => d) (calculateLayoutT t dirArg true).1,
       hasNewLayoutAcc x = true ∧ x.isDirtyFlag = false ∧
       isDirtyAcc x = (effectiveDirection t dirArg).isRTL) := by
  refine ⟨rfl, ?_⟩
  intro x hx
  rw [calcLayout_true_fst, collectT_mapTree, collectT_eq_map] at hx
  rcases List.mem_map.mp hx with ⟨d, hd, rfl⟩
  refine ⟨?_, postD_isDirtyFlag _ _, ?_⟩
  · rw [hasNewLayoutAcc, postD_hasNewLayout]
  · rw [isDirtyAcc, postD_engineDirty]

/-- Witness for `c6_amended`: the all-nodes conjunct applied to the root
element of a concrete completed LTR pass. -/
theorem c6_amended_witness :
    hasNewLayoutAcc ((calculateLayoutT c6TreeCex none true).1.data) = true := by
  have h := (c6_amended c6TreeCex none).2
      ((calculateLayoutT c6TreeCex none true).1.data)
      (by rw [collectT_data_kids]; exact List.mem_cons_self _ _)
  exact h.1

mutual
theorem freeRecursiveT_subset :
    ∀ (t : NTree) (reg : List ℕ) (i : ℕ), i ∈ freeRecursiveT t reg → i ∈ reg
  | NTree.node d cs, reg, i => fun h => by
    simp only [freeRecursiveT, freeD] at h
    exact freeRecursiveF_subset cs reg i (List.mem_of_mem_filter h)
theorem freeRecursiveF_subset :
    ∀ (cs : NForest) (reg : List ℕ) (i : ℕ), i ∈ freeRecursiveF cs reg → i ∈ reg
  | NForest.nil, _, _ => fun h => h
  | NForest.cons c cs, reg, i => fun h =>
    freeRecursiveT_subset c reg i (freeRecursiveF_subset cs _ i h)
end

mutual
theorem freeRecursiveT_removes :
    ∀ (t : NTree) (reg : List ℕ) (i : ℕ), i ∈ collectT (fun d => d.nid) t →
      i ∉ freeRecursiveT t reg
  | NTree.node d cs, reg, i => fun hm h => by
    simp only [collectT_node, List.mem_cons] at hm
    simp only [freeRecursiveT, freeD, List.mem_filter, decide_eq_true_eq] at h
    rcases hm with h1 | h2
    · exact h.2 h1
    · exact freeRecursiveF_removes cs reg i h2 h.1
theorem freeRecursiveF_removes :
    ∀ (cs : NForest) (reg : List ℕ) (i : ℕ), i ∈ collectF (fun d => d.nid) cs →
      i ∉ freeRecursiveF cs reg
  | NForest.nil, _, i => fun hm => by simp at hm
  | NForest.cons c cs, reg, i => fun hm h => by
    simp only [collectF_cons, List.mem_append] at hm
    simp only [freeRecursiveF] at h
    rcases hm with h1 | h2
    · exact freeRecursiveT_removes c reg i h1 (freeRecursiveF_subset cs _ i h)
    · exact freeRecursiveF_removes cs _ i h2 h
end

/-- C7: `freeRecursive` removes every handle of the subtree (the root's
own included) from the instance registry — any subsequent lookup of a freed
handle fails to resolve — and the free order is depth-first: all children's
subtrees are freed, in order, before the node itself. -/
theorem c7_free_recursive :
    (∀ (t : NTree) (reg : List ℕ) (i : ℕ), i ∈ collectT (fun d => d.nid) t →
       getNodeByIdB (freeRecursiveT t reg) i = false) ∧
    (∀ (d : NodeData) (cs : NForest),
       freeOrderT (NTree.node d cs) = freeOrderF cs ++ [d.nid]) := by
  constructor
  · intro t reg i hm
    simp only [getNodeByIdB, decide_eq_false_iff_not]
    exact freeRecursiveT_removes t reg i hm
  · intro d cs
    rfl

/-- Witness for `c7_free_recursive`: freeing a three-level chain removes
the deepest and the root handle from a concrete registry. -/
theorem c7_free_recursive_witness :
    getNodeByIdB (freeRecursiveT c7TreeCex [1, 2, 3]) 3 = false ∧
    getNodeByIdB (freeRecursiveT c7TreeCex [1, 2, 3]) 1 = false :=
  ⟨c7_free_recursive.1 c7TreeCex [1, 2, 3] 3 (by decide),
   c7_free_recursive.1 c7TreeCex [1, 2, 3] 1 (by decide)⟩

end YogaTaffy
